import Mathlib

/-!
Verification of the `CondensedMemoryBlock` component.

Shallow embedding of the one piece of original logic in this repository:
the `CondensedMemoryBlock` class (a token-bounded FIFO buffer of serialized
chat turns) with its `_aget` and `_aput` methods, together with theorems
settling the specification's claims about it.

Modelling conventions:
* Python `int` is `Int`; token counts are `Nat`.
* The tokenizer (`len(self.tokenizer.encode(s))` in the source) is an
  abstract configured function `String → Nat`, as the spec's design notes
  direct ("the tokenizer must be passed in as a configuration value").
* Dynamic Python values occurring in `additional_kwargs` are the inductive
  `PyVal` (strings, ints, lists, dicts); `repr` of such values is modelled
  for quote-free strings (escaping elided — no claim depends on it).
* Fallible code (a `KeyError`/`TypeError` raised by the tool-call
  transformation) is `Option`: `none` is a raised exception.
* The eviction `while` loop drops the head of the list and re-checks; on
  the empty list `list[1:]` is again the empty list, so when
  `0 > token_limit` the loop never exits.  `evict` therefore returns
  `none` exactly when the source loop runs forever.
-/

namespace CondensedMemory

mutual

/-- Dynamic (JSON-like) Python values carried in `message.additional_kwargs`.
Mutually inductive with its list/dict spines so that all recursion over it
is structural (and hence evaluates definitionally). -/
inductive PyVal where
  | str : String → PyVal
  | int : Int → PyVal
  | list : PyList → PyVal
  | dict : PyFields → PyVal

inductive PyList where
  | nil : PyList
  | cons : PyVal → PyList → PyList

inductive PyFields where
  | nil : PyFields
  | cons : String → PyVal → PyFields → PyFields

end

mutual

/-- Python `repr`, as used by the source's interpolation of the kwargs dict
(string quoting is modelled for quote-free strings). -/
def reprVal : PyVal → String
  | .str s => "\x27" ++ s ++ "\x27"
  | .int n => toString n
  | .list vs => "[" ++ String.intercalate ", " (reprList vs) ++ "]"
  | .dict fs => "\x7b" ++ String.intercalate ", " (reprFields fs) ++ "\x7d"

def reprList : PyList → List String
  | .nil => []
  | .cons v vs => reprVal v :: reprList vs

def reprFields : PyFields → List String
  | .nil => []
  | .cons k v fs => ("\x27" ++ k ++ "\x27: " ++ reprVal v) :: reprFields fs

end

/-- Python repr of a whole kwargs dict, brace-delimited key/value pairs. -/
def pyReprDict (fs : PyFields) : String :=
  "\x7b" ++ String.intercalate ", " (reprFields fs) ++ "\x7d"

/-- Python dict truthiness: a dict is falsy iff it has no entries. -/
def PyFields.isEmpty : PyFields → Bool
  | .nil => true
  | .cons _ _ _ => false

/-- Lookup of a key in a dict's entries (Python dicts have unique keys,
so first match is the match). -/
def findKey (k : String) : PyFields → Option PyVal
  | .nil => none
  | .cons k2 v rest => if k2 = k then some v else findKey k rest

/-- Python subscript `v[k]` with a string key: succeeds only on a dict
containing the key; anything else raises (`KeyError`/`TypeError`). -/
def pySubscript (v : PyVal) (k : String) : Option PyVal :=
  match v with
  | .dict fs => findKey k fs
  | _ => none

/-- The keys of a dict, as Python string values (what `for x in d` yields). -/
def keysOf : PyFields → PyList
  | .nil => .nil
  | .cons k _ rest => .cons (.str k) (keysOf rest)

/-- Python iteration `for x in v`: lists yield their elements, dicts their
keys, strings their one-character substrings; iterating an `int` raises. -/
def pyIter : PyVal → Option PyList
  | .list vs => some vs
  | .dict fs => some (keysOf fs)
  | .str s => some (s.toList.foldr (fun c acc => PyList.cons (.str c.toString) acc) .nil)
  | .int _ => none

/-- Source, one tool-call record:
`{"name": tool_call["function"]["name"], "args": tool_call["function"]["arguments"]}`.
`none` models the raised exception when a lookup fails. -/
def reduceToolCall (tc : PyVal) : Option PyVal :=
  match pySubscript tc "function" with
  | none => none
  | some f =>
    match pySubscript f "name", pySubscript f "arguments" with
    | some n, some a => some (PyVal.dict (.cons "name" n (.cons "args" a .nil)))
    | _, _ => none

/-- The list comprehension body applied to each iterated record, failing
fast at the first record that raises. -/
def reduceToolCallList : PyList → Option PyList
  | .nil => some .nil
  | .cons tc rest =>
    match reduceToolCall tc with
    | none => none
    | some r => (reduceToolCallList rest).map (PyList.cons r)

/-- Source: `val = [{...} for tool_call in val]` for the `tool_calls` value. -/
def reduceToolCalls (val : PyVal) : Option PyVal :=
  match pyIter val with
  | none => none
  | some tcs => (reduceToolCallList tcs).map PyVal.list

/-- Source, the `kwargs` dict built from `message.additional_kwargs`:
`tool_calls` is reduced, `session_id` and `tool_call_id` are dropped,
everything else passes through, in iteration order. -/
def filterKwargs : PyFields → Option PyFields
  | .nil => some .nil
  | .cons key val rest =>
    if key = "tool_calls" then
      match reduceToolCalls val with
      | none => none
      | some val2 => (filterKwargs rest).map (PyFields.cons key val2)
    else if key ≠ "session_id" ∧ key ≠ "tool_call_id" then
      (filterKwargs rest).map (PyFields.cons key val)
    else
      filterKwargs rest

/-- One content segment of a chat message: a `TextBlock` or any non-text
block (image, audio, ...), which `_aput` ignores. -/
inductive ContentBlock where
  | text : String → ContentBlock
  | other : String → ContentBlock

/-- The text of a `TextBlock`; `none` for any other block kind
(the `isinstance(block, TextBlock)` filter in the source). -/
def textOfBlock : ContentBlock → Option String
  | .text t => some t
  | .other _ => none

/-- A chat message as consumed by the block: role, content segments and the
auxiliary `additional_kwargs` attribute dict. -/
structure ChatMessage where
  role : String
  blocks : List ContentBlock
  additional_kwargs : PyFields

/-- Source: `"\n".join(block.text for block in message.blocks if isinstance(block, TextBlock))`. -/
def textContents (m : ChatMessage) : String :=
  String.intercalate "\n" (m.blocks.filterMap textOfBlock)

/-- The string `_aput` builds for one message (the loop body up to
`self.current_memory.append(memory_str)`); `none` models a raised
exception inside the tool-call transformation. -/
def renderMessage (m : ChatMessage) : Option String :=
  let tc := textContents m
  let memory_str := if tc.isEmpty then "" else tc
  match filterKwargs m.additional_kwargs with
  | none => none
  | some kwargs =>
    some (memory_str ++ (if kwargs.isEmpty then "" else "\n(" ++ pyReprDict kwargs ++ ")"))

/-- The state of a `CondensedMemoryBlock`: the entry buffer, the configured
token limit and the configured tokenizer (string ↦ token count). -/
structure CondensedMemoryBlock where
  current_memory : List String
  token_limit : Int
  tokenizer : String → Nat

/-- Source: `sum(len(self.tokenizer.encode(message)) for message in self.current_memory)`. -/
def totalTokens (tok : String → Nat) (mem : List String) : Nat :=
  (mem.map tok).sum

/-- The eviction loop
`while message_length > self.token_limit: self.current_memory = self.current_memory[1:]; ...`.
Each iteration drops the head and recomputes the total.  On the empty list
the condition is `0 > token_limit`; if that holds the loop never exits
(`[][1:] == []`), which is modelled by `none`. -/
def evict (tok : String → Nat) (limit : Int) : List String → Option (List String)
  | [] => if (totalTokens tok [] : Int) > limit then none else some []
  | s :: rest =>
    if (totalTokens tok (s :: rest) : Int) > limit then evict tok limit rest
    else some (s :: rest)

/-- The appending `for message in messages` loop of `_aput`:
each message's rendering is appended at the back; a raised exception
propagates (`none`). -/
def putMessages (mem : List String) : List ChatMessage → Option (List String)
  | [] => some mem
  | m :: rest =>
    match renderMessage m with
    | none => none
    | some s => putMessages (mem ++ [s]) rest

/-- Source `_aput`: append a rendering of every message, then run the eviction
loop.  `none` models a call that raises or never returns. -/
def aput (b : CondensedMemoryBlock) (msgs : List ChatMessage) : Option CondensedMemoryBlock :=
  (putMessages b.current_memory msgs).bind fun mem =>
    (evict b.tokenizer b.token_limit mem).map fun mem2 =>
      { b with current_memory := mem2 }

/-- The renderings of a batch of messages, in order (`none` if any message
raises); `putMessages` appends exactly these at the back of the buffer. -/
def renderAll : List ChatMessage → Option (List String)
  | [] => some []
  | m :: rest =>
    match renderMessage m with
    | none => none
    | some s => (renderAll rest).map (fun l => s :: l)

/-- Source `_aget`, which joins the buffer with newlines.  The method reads the
state and does not mutate it, so it is embedded as returning the string
together with the (unchanged) block. -/
def aget (b : CondensedMemoryBlock) : String × CondensedMemoryBlock :=
  (String.intercalate "\n" b.current_memory, b)

/-! Reference definitions following the specification's words, for the
refinement-style claims, plus the well-formedness predicate on tool-call
records and the concrete inputs used by witnesses and counterexamples. -/

/-- Subscript with a default, used only by the spec-side reference
definitions below (where the claims' preconditions guarantee the key is
present, so the default is never reached). -/
def dictGet (v : PyVal) (k : String) : PyVal :=
  (pySubscript v k).getD (.str "")

/-- Reference definition following the spec's words (claim C5): a tool-call
record is replaced by "a reduced form containing only the tool's name and
its serialized arguments". -/
def reducedToolCallSpec (tc : PyVal) : PyVal :=
  .dict (.cons "name" (dictGet (dictGet tc "function") "name")
    (.cons "args" (dictGet (dictGet tc "function") "arguments") .nil))

/-- Spec-side reduction applied to every listed tool-call record. -/
def reducedListSpec : PyList → PyList
  | .nil => .nil
  | .cons tc rest => .cons (reducedToolCallSpec tc) (reducedListSpec rest)

/-- Reference definition following the spec's words (claim C5): "drop any
entry whose key is a session identifier or a tool-call identifier; if the
key denotes tool-call records, transform each record into a reduced form;
all other keys/values pass through unmodified". -/
def filterKwargsSpec : PyFields → PyFields
  | .nil => .nil
  | .cons k v rest =>
    if k = "session_id" ∨ k = "tool_call_id" then filterKwargsSpec rest
    else if k = "tool_calls" then
      PyFields.cons k
        (match v with
          | .list tcs => .list (reducedListSpec tcs)
          | v2 => v2)
        (filterKwargsSpec rest)
    else PyFields.cons k v (filterKwargsSpec rest)

/-- A tool-call record is well formed when it is a mapping whose
`function` entry is itself a mapping containing `name` and `arguments`
keys (the precondition of claims C5 and C10). -/
def wellFormedToolCall (tc : PyVal) : Bool :=
  match tc with
  | .dict fs =>
    match findKey "function" fs with
    | some (.dict f) => (findKey "name" f).isSome && (findKey "arguments" f).isSome
    | _ => false
  | _ => false

/-- All records of a list are well formed. -/
def allWellFormed : PyList → Bool
  | .nil => true
  | .cons tc rest => wellFormedToolCall tc && allWellFormed rest

/-- The value stored under a `tool_calls` key is well formed when it is a
list of well-formed tool-call records. -/
def toolCallsValWF (v : PyVal) : Bool :=
  match v with
  | .list tcs => allWellFormed tcs
  | _ => false

/-- A kwargs dict is well formed when every value under a `tool_calls` key
is a list of well-formed tool-call records. -/
def kwargsWF : PyFields → Bool
  | .nil => true
  | .cons k v rest =>
    (if k = "tool_calls" then toolCallsValWF v else true) && kwargsWF rest

/-- A deterministic mock tokenizer (one token per character), as the spec's
design notes direct for testing: "substitute a deterministic mock ...
without depending on an external tokenizer implementation". -/
def charTokenizer : String → Nat := String.length

/-- Concrete message whose rendering is the five-token entry "Hello". -/
def msgHello : ChatMessage := ⟨"user", [.text "Hello"], .nil⟩

/-- Concrete message whose rendering is the two-token entry "hi". -/
def msgHi : ChatMessage := ⟨"user", [.text "hi"], .nil⟩

/-- The same content as `msgHi` under a different role. -/
def msgHiAssistant : ChatMessage := ⟨"assistant", [.text "hi"], .nil⟩

/-- Concrete message whose rendering is the two-token entry "ab". -/
def msgAb : ChatMessage := ⟨"user", [.text "ab"], .nil⟩

/-- Concrete message with no content and no attributes: renders to the
empty entry, which the tokenizer counts as zero tokens. -/
def msgBlank : ChatMessage := ⟨"user", [], .nil⟩

/-- Concrete message with only a non-text segment and one pass-through
attribute. -/
def msgAttrOnly : ChatMessage :=
  ⟨"assistant", [.other "image"], .cons "foo" (.str "bar") .nil⟩

/-- Concrete kwargs dict carrying one well-formed tool-call record next to
`session_id` and `tool_call_id` entries (the spec's own filtering example). -/
def toolKwargs : PyFields :=
  .cons "tool_calls"
    (.list (.cons (.dict (.cons "function"
      (.dict (.cons "name" (.str "multiply")
        (.cons "arguments" (.str "[3, 4]") .nil))) .nil)) .nil))
    (.cons "session_id" (.str "x") (.cons "tool_call_id" (.str "y") .nil))

/-- Concrete message carrying `toolKwargs`. -/
def msgToolCall : ChatMessage := ⟨"assistant", [.text "hi"], toolKwargs⟩

/-! Helper lemmas shared by the claim theorems. -/

theorem totalTokens_nil (tok : String → Nat) : totalTokens tok [] = 0 := rfl

theorem totalTokens_cons (tok : String → Nat) (s : String) (l : List String) :
    totalTokens tok (s :: l) = tok s + totalTokens tok l := by
  simp [totalTokens]

theorem totalTokens_append (tok : String → Nat) (l1 l2 : List String) :
    totalTokens tok (l1 ++ l2) = totalTokens tok l1 + totalTokens tok l2 := by
  simp [totalTokens]

/-- Whatever the eviction loop returns is a suffix of its input whose total
token count is within the limit. -/
theorem evict_eq_some {tok : String → Nat} {limit : Int} {l l' : List String}
    (h : evict tok limit l = some l') :
    l' <:+ l ∧ (totalTokens tok l' : Int) ≤ limit := by
  induction l with
  | nil =>
    unfold evict at h
    split at h
    · exact absurd h (by simp)
    · next hc =>
      cases h
      exact ⟨List.suffix_rfl, by simpa [totalTokens] using not_lt.mp hc⟩
  | cons s rest ih =>
    unfold evict at h
    split at h
    · obtain ⟨hs, hle⟩ := ih h
      exact ⟨hs.trans (List.suffix_cons s rest), hle⟩
    · next hc =>
      cases h
      exact ⟨List.suffix_rfl, not_lt.mp hc⟩

/-- With a nonnegative limit the eviction loop always terminates. -/
theorem evict_some_of_nonneg {limit : Int} (hlim : 0 ≤ limit) (tok : String → Nat)
    (l : List String) : ∃ l', evict tok limit l = some l' := by
  induction l with
  | nil =>
    refine ⟨[], ?_⟩
    unfold evict
    rw [if_neg]
    simp [totalTokens]
    omega
  | cons s rest ih =>
    by_cases hc : (totalTokens tok (s :: rest) : Int) > limit
    · obtain ⟨l', hl'⟩ := ih
      exact ⟨l', by unfold evict; rw [if_pos hc]; exact hl'⟩
    · exact ⟨s :: rest, by unfold evict; rw [if_neg hc]⟩

/-- With a negative limit the eviction loop never terminates: every suffix
(including the empty one) still exceeds the limit. -/
theorem evict_neg_none (tok : String → Nat) {limit : Int} (hneg : limit < 0)
    (l : List String) : evict tok limit l = none := by
  induction l with
  | nil =>
    unfold evict
    rw [if_pos]
    exact lt_of_lt_of_le hneg (by simp [totalTokens])
  | cons s rest ih =>
    unfold evict
    rw [if_pos, ih]
    exact lt_of_lt_of_le hneg (by positivity)

/-- A buffer already within budget is untouched by the eviction loop. -/
theorem evict_of_le {tok : String → Nat} {limit : Int} {l : List String}
    (h : (totalTokens tok l : Int) ≤ limit) : evict tok limit l = some l := by
  cases l with
  | nil => unfold evict; rw [if_neg (not_lt.mpr h)]
  | cons s rest => unfold evict; rw [if_neg (not_lt.mpr h)]

/-- If the entry at the very back of the buffer alone exceeds a nonnegative
limit, the eviction loop strips the buffer down to nothing. -/
theorem evict_last_exceeds (tok : String → Nat) {limit : Int} (e : String)
    (hlim : 0 ≤ limit) (he : limit < (tok e : Int)) :
    ∀ q : List String, evict tok limit (q ++ [e]) = some [] := by
  intro q
  induction q with
  | nil =>
    show evict tok limit (e :: []) = some []
    unfold evict
    rw [if_pos (by simpa [totalTokens] using he)]
    unfold evict
    rw [if_neg (by simp [totalTokens]; omega)]
  | cons s q ih =>
    show evict tok limit (s :: (q ++ [e])) = some []
    unfold evict
    rw [if_pos, ih]
    have : tok e ≤ totalTokens tok (s :: (q ++ [e])) := by
      rw [totalTokens_cons, totalTokens_append, totalTokens_cons, totalTokens_nil]
      omega
    omega

/-- The appending loop appends the renderings of all messages at the back,
or fails if any rendering raises. -/
theorem putMessages_eq_renderAll (mem : List String) (msgs : List ChatMessage) :
    putMessages mem msgs = (renderAll msgs).map (fun app => mem ++ app) := by
  induction msgs generalizing mem with
  | nil => simp [putMessages, renderAll]
  | cons m rest ih =>
    cases hm : renderMessage m with
    | none => simp [putMessages, renderAll, hm]
    | some s =>
      simp only [putMessages, renderAll, hm, ih]
      cases renderAll rest <;> simp

/-- If every message renders, the appending loop succeeds. -/
theorem putMessages_some_of {msgs : List ChatMessage}
    (h : ∀ m ∈ msgs, (renderMessage m).isSome = true) (mem : List String) :
    ∃ mem2, putMessages mem msgs = some mem2 := by
  induction msgs generalizing mem with
  | nil => exact ⟨mem, rfl⟩
  | cons m rest ih =>
    obtain ⟨s, hs⟩ := Option.isSome_iff_exists.mp (h m (List.mem_cons_self m rest))
    obtain ⟨mem2, hm2⟩ := ih (fun m2 hm2 => h m2 (List.mem_cons_of_mem m hm2)) (mem ++ [s])
    exact ⟨mem2, by simp [putMessages, hs, hm2]⟩

/-- Inversion of a successful `aput`: the appending loop produced some
buffer, the eviction loop reduced it, and only `current_memory` changed. -/
theorem aput_inv {b b' : CondensedMemoryBlock} {msgs : List ChatMessage}
    (h : aput b msgs = some b') :
    ∃ mem mem2, putMessages b.current_memory msgs = some mem
      ∧ evict b.tokenizer b.token_limit mem = some mem2
      ∧ b' = { b with current_memory := mem2 } := by
  unfold aput at h
  rw [Option.bind_eq_some] at h
  obtain ⟨mem, hpm, h⟩ := h
  rw [Option.map_eq_some'] at h
  obtain ⟨mem2, hev, hb⟩ := h
  exact ⟨mem, mem2, hpm, hev, hb.symm⟩

/-- Well-formed tool-call records are reduced exactly as the spec
describes. -/
theorem reduceToolCall_of_wf {tc : PyVal} (h : wellFormedToolCall tc = true) :
    reduceToolCall tc = some (reducedToolCallSpec tc) := by
  cases tc with
  | dict fs =>
    cases hf : findKey "function" fs with
    | none => simp [wellFormedToolCall, hf] at h
    | some fv =>
      cases fv with
      | dict f =>
        cases hn : findKey "name" f with
        | none => simp [wellFormedToolCall, hf, hn] at h
        | some n =>
          cases ha : findKey "arguments" f with
          | none => simp [wellFormedToolCall, hf, hn, ha] at h
          | some a =>
            simp [reduceToolCall, reducedToolCallSpec, dictGet, pySubscript, hf, hn, ha]
      | str s => simp [wellFormedToolCall, hf] at h
      | int n => simp [wellFormedToolCall, hf] at h
      | list l => simp [wellFormedToolCall, hf] at h
  | str s => simp [wellFormedToolCall] at h
  | int n => simp [wellFormedToolCall] at h
  | list l => simp [wellFormedToolCall] at h

/-- Lists of well-formed tool-call records are reduced elementwise as the
spec describes. -/
theorem reduceToolCallList_of_wf : ∀ {tcs : PyList}, allWellFormed tcs = true →
    reduceToolCallList tcs = some (reducedListSpec tcs)
  | .nil, _ => rfl
  | .cons tc rest, h => by
    rw [allWellFormed, Bool.and_eq_true] at h
    simp [reduceToolCallList, reducedListSpec, reduceToolCall_of_wf h.1,
      reduceToolCallList_of_wf h.2]

/-- On well-formed kwargs the code's filtering agrees with the spec's
description of the filtered attribute mapping. -/
theorem filterKwargs_of_wf : ∀ {items : PyFields}, kwargsWF items = true →
    filterKwargs items = some (filterKwargsSpec items)
  | .nil, _ => rfl
  | .cons k v rest, h => by
    rw [kwargsWF, Bool.and_eq_true] at h
    obtain ⟨h1, h2⟩ := h
    by_cases hk : k = "tool_calls"
    · subst hk
      rw [if_pos rfl] at h1
      cases v with
      | list tcs =>
        simp only [toolCallsValWF] at h1
        simp +decide [filterKwargs, filterKwargsSpec, reduceToolCalls, pyIter,
          reduceToolCallList_of_wf h1, filterKwargs_of_wf h2]
      | str s => simp [toolCallsValWF] at h1
      | int n => simp [toolCallsValWF] at h1
      | dict d => simp [toolCallsValWF] at h1
    · by_cases hs : k = "session_id"
      · subst hs
        simp +decide [filterKwargs, filterKwargsSpec, filterKwargs_of_wf h2]
      · by_cases ht : k = "tool_call_id"
        · subst ht
          simp +decide [filterKwargs, filterKwargsSpec, filterKwargs_of_wf h2]
        · simp [filterKwargs, filterKwargsSpec, hk, hs, ht, filterKwargs_of_wf h2]

/-! The claim theorems. -/

/-- C1: For every sequence of put calls with a non-negative configured
token_limit, after each put call completes, the sum over all retained
buffer entries of the token count of that entry under the configured
tokenizer is less than or equal to token_limit.  (Stated over one
completed put from an arbitrary prior state, which covers every call of
every sequence.) -/
theorem put_respects_token_limit (b b' : CondensedMemoryBlock) (msgs : List ChatMessage)
    (hlim : 0 ≤ b.token_limit) (h : aput b msgs = some b') :
    (totalTokens b'.tokenizer b'.current_memory : Int) ≤ b'.token_limit := by
  obtain ⟨mem, mem2, hpm, hev, rfl⟩ := aput_inv h
  exact (evict_eq_some hev).2

/-- Witness for C1: a concrete completed put stays within its limit. -/
theorem put_respects_token_limit_witness :
    (totalTokens charTokenizer ["Hello"] : Int) ≤ (10 : Int) :=
  put_respects_token_limit ⟨[], 10, charTokenizer⟩ ⟨["Hello"], 10, charTokenizer⟩
    [msgHello] (by norm_num) rfl

/-- C2 counterexample: the claim "eviction never removes the newest entry;
when the most recent entry alone exceeds the limit exactly one entry
remains" is false.  With token limit 1, putting a message whose entry "ab"
counts 2 tokens leaves zero entries, not one: the eviction loop also
removes the newest entry. -/
theorem newest_entry_evicted_cex :
    renderMessage msgAb = some "ab"
    ∧ (1 : Int) < (charTokenizer "ab" : Int)
    ∧ (aput ⟨[], 1, charTokenizer⟩ [msgAb]).map CondensedMemoryBlock.current_memory
        = some [] :=
  ⟨rfl, by decide, rfl⟩

/-- C2 (amended): when the newest appended entry alone exceeds a
nonnegative token limit, the eviction loop removes every entry including
the newest one, leaving the buffer empty. -/
theorem oversize_newest_empties_buffer (b b' : CondensedMemoryBlock)
    (msgs : List ChatMessage) (mem0 : List String) (e : String)
    (hlim : 0 ≤ b.token_limit)
    (hpm : putMessages b.current_memory msgs = some (mem0 ++ [e]))
    (he : b.token_limit < (b.tokenizer e : Int))
    (h : aput b msgs = some b') :
    b'.current_memory = [] := by
  obtain ⟨mem, mem2, hpm2, hev, rfl⟩ := aput_inv h
  rw [hpm] at hpm2
  cases hpm2
  rw [evict_last_exceeds b.tokenizer e hlim he mem0] at hev
  exact (Option.some.inj hev).symm

/-- Witness for C2's amended claim at a concrete oversize entry. -/
theorem oversize_newest_empties_buffer_witness :
    (CondensedMemoryBlock.mk [] 1 charTokenizer).current_memory = ([] : List String) :=
  oversize_newest_empties_buffer ⟨[], 1, charTokenizer⟩ ⟨[], 1, charTokenizer⟩
    [msgAb] [] "ab" (by norm_num) rfl (by decide) rfl

/-- C3 counterexample: the claim "for every zero-or-negative token limit,
every put terminates leaving the buffer empty and get() returns the empty
string" is false.  With limit -1 even put of no messages never returns
(the eviction loop cannot exit; modelled by none), and with limit 0 two
no-content messages leave two zero-token entries whose get() is a newline,
not the empty string. -/
theorem nonpositive_limit_cex :
    aput ⟨[], -1, charTokenizer⟩ [] = none
    ∧ (aput ⟨[], 0, charTokenizer⟩ [msgBlank, msgBlank]).map
        (fun b => ((aget b).1, b.current_memory)) = some ("\n", ["", ""]) :=
  ⟨rfl, rfl⟩

/-- C3 (amended): with a negative token limit no put call terminates; with
token limit zero every put that raises no key-lookup error terminates and
leaves a buffer of total token count zero — the buffer is empty only up to
zero-token entries, and get() returns the empty string once it is empty. -/
theorem nonpositive_limit_behavior (b : CondensedMemoryBlock) (msgs : List ChatMessage) :
    (b.token_limit < 0 → aput b msgs = none)
    ∧ (b.token_limit = 0 →
        (∀ b', aput b msgs = some b' →
          totalTokens b'.tokenizer b'.current_memory = 0
          ∧ (b'.current_memory = [] → (aget b').1 = ""))
        ∧ (∀ mem, putMessages b.current_memory msgs = some mem →
            (aput b msgs).isSome = true)) := by
  constructor
  · intro hneg
    unfold aput
    cases hpm : putMessages b.current_memory msgs with
    | none => rfl
    | some mem => simp [evict_neg_none b.tokenizer hneg mem]
  · intro h0
    constructor
    · intro b' hb'
      obtain ⟨mem, mem2, hpm, hev, rfl⟩ := aput_inv hb'
      have h2 := (evict_eq_some hev).2
      rw [h0] at h2
      constructor
      · show totalTokens b.tokenizer mem2 = 0
        omega
      · intro hm
        have hm2 : mem2 = [] := hm
        subst hm2
        rfl
    · intro mem hpm
      obtain ⟨mem2, hev⟩ := evict_some_of_nonneg (le_of_eq h0.symm) b.tokenizer mem
      simp [aput, hpm, hev]

/-- Witness for C3's amended claim: divergence at limit -1, and a
zero-total terminating put at limit 0. -/
theorem nonpositive_limit_behavior_witness :
    aput ⟨[], -1, charTokenizer⟩ [] = none
    ∧ totalTokens charTokenizer [""] = 0
    ∧ (aput ⟨[], 0, charTokenizer⟩ [msgBlank]).isSome = true :=
  ⟨(nonpositive_limit_behavior ⟨[], -1, charTokenizer⟩ []).1 (by norm_num),
   ((((nonpositive_limit_behavior ⟨[], 0, charTokenizer⟩ [msgBlank]).2 rfl).1)
     ⟨[""], 0, charTokenizer⟩ rfl).1,
   (((nonpositive_limit_behavior ⟨[], 0, charTokenizer⟩ [msgBlank]).2 rfl).2) [""] rfl⟩

/-- C4: For every chat message whose attribute filtering succeeds, the
appended buffer entry is the newline-join of its text segments' texts,
followed — exactly when the filtered attribute mapping is non-empty — by a
newline and the mapping's rendered form wrapped in parentheses; a message
with no text segments and non-empty filtered attributes still yields an
entry carrying the attribute annotation. -/
theorem entry_format (m : ChatMessage) (kw : PyFields)
    (hkw : filterKwargs m.additional_kwargs = some kw) :
    renderMessage m = some (textContents m
      ++ (if kw.isEmpty then "" else "\n(" ++ pyReprDict kw ++ ")"))
    ∧ (textContents m = "" → kw.isEmpty = false →
        renderMessage m = some ("\n(" ++ pyReprDict kw ++ ")")) := by
  have hid : (if (textContents m).isEmpty then "" else textContents m) = textContents m := by
    by_cases h : (textContents m).isEmpty
    · rw [if_pos h, ((String.isEmpty_iff _).mp h)]
    · rw [if_neg h]
  constructor
  · simp only [renderMessage, hkw, hid]
  · intro ht hne
    simp only [renderMessage, hkw, hid, ht, hne]
    simp

/-- Witness for C4 at a message with only a non-text segment and one
pass-through attribute. -/
theorem entry_format_witness :
    renderMessage msgAttrOnly
      = some ("\n(" ++ pyReprDict (.cons "foo" (.str "bar") .nil) ++ ")") :=
  (entry_format msgAttrOnly (.cons "foo" (.str "bar") .nil) rfl).2 rfl rfl

/-- C5: On every kwargs dict whose tool-call records are well formed (a
list of mappings each holding a function entry with name and arguments),
the filtered attribute mapping built by put drops every `session_id` and
`tool_call_id` attribute, replaces each record under `tool_calls` by a
reduced record containing only the tool's name and its serialized
arguments, and passes every other pair through unmodified — stated as
agreement with `filterKwargsSpec`, the definition following the spec's
words. -/
theorem kwargs_filtering (m : ChatMessage) (h : kwargsWF m.additional_kwargs = true) :
    filterKwargs m.additional_kwargs = some (filterKwargsSpec m.additional_kwargs) :=
  filterKwargs_of_wf h

/-- Witness for C5 at the spec's own example: one multiply tool call next
to session and tool-call identifiers. -/
theorem kwargs_filtering_witness :
    filterKwargs msgToolCall.additional_kwargs
      = some (filterKwargsSpec msgToolCall.additional_kwargs) :=
  kwargs_filtering msgToolCall rfl

/-- C6: get() returns exactly the current buffer entries joined by newline
in insertion order, does not change the block, returns the empty string on
an empty buffer, and two consecutive get() calls with no intervening put
return identical strings. -/
theorem get_pure_join (b : CondensedMemoryBlock) :
    (aget b).1 = String.intercalate "\n" b.current_memory
    ∧ (aget b).2 = b
    ∧ (b.current_memory = [] → (aget b).1 = "")
    ∧ (aget ((aget b).2)).1 = (aget b).1 :=
  ⟨rfl, rfl, fun h => by simp [aget, h]; rfl, rfl⟩

/-- Witness for C6 on a concrete empty block. -/
theorem get_pure_join_witness :
    (aget ⟨[], 50000, charTokenizer⟩).1 = ""
    ∧ (aget ⟨[], 50000, charTokenizer⟩).2 = (⟨[], 50000, charTokenizer⟩ : CondensedMemoryBlock) :=
  ⟨(get_pure_join ⟨[], 50000, charTokenizer⟩).2.2.1 rfl,
   (get_pure_join ⟨[], 50000, charTokenizer⟩).2.1⟩

/-- C7: after any completed put, the remaining buffer is a suffix of the
old buffer followed by the new renderings — eviction removes only from the
front and appending happens only at the back, so every pair of surviving
entries keeps its relative insertion order — and get() joins the surviving
entries in exactly that order. -/
theorem order_preserved (b b' : CondensedMemoryBlock) (msgs : List ChatMessage)
    (app : List String) (happ : renderAll msgs = some app)
    (h : aput b msgs = some b') :
    b'.current_memory <:+ (b.current_memory ++ app)
    ∧ (aget b').1 = String.intercalate "\n" b'.current_memory := by
  obtain ⟨mem, mem2, hpm, hev, rfl⟩ := aput_inv h
  have hp2 : putMessages b.current_memory msgs = some (b.current_memory ++ app) := by
    rw [putMessages_eq_renderAll, happ]
    rfl
  rw [hp2] at hpm
  cases hpm
  exact ⟨(evict_eq_some hev).1, rfl⟩

/-- Witness for C7: a put that evicts the old entry keeps the surviving
entry as a suffix of old-buffer-plus-appended. -/
theorem order_preserved_witness :
    ["hi"] <:+ (["old"] ++ ["hi"])
    ∧ (aget (⟨["hi"], 4, charTokenizer⟩ : CondensedMemoryBlock)).1
        = String.intercalate "\n" ["hi"] :=
  order_preserved ⟨["old"], 4, charTokenizer⟩ ⟨["hi"], 4, charTokenizer⟩
    [msgHi] ["hi"] rfl rfl

/-- C8 counterexample: the claim "for every buffer state, put with an empty
message sequence is a no-op" is false.  From the state with one two-token
entry "ab" and token limit 1, put([]) still runs the eviction loop and
empties the buffer. -/
theorem empty_put_not_noop_cex :
    (aput ⟨["ab"], 1, charTokenizer⟩ []).map CondensedMemoryBlock.current_memory
      = some []
    ∧ (["ab"] : List String) ≠ []
    ∧ (1 : Int) < (totalTokens charTokenizer ["ab"] : Int) :=
  ⟨rfl, by decide, by decide⟩

/-- C8 (amended): put with an empty message sequence appends nothing and is
a no-op from every state whose total token count is within the limit — in
particular from any state a completed put leaves behind; from an
over-budget state the trailing eviction loop still runs. -/
theorem empty_put_noop_within_budget (b : CondensedMemoryBlock)
    (h : (totalTokens b.tokenizer b.current_memory : Int) ≤ b.token_limit) :
    aput b [] = some b := by
  have hev := evict_of_le h
  simp only [aput, putMessages, Option.some_bind, hev, Option.map_some']

/-- Witness for C8's amended claim on a concrete within-budget state. -/
theorem empty_put_noop_within_budget_witness :
    aput ⟨["hi"], 10, charTokenizer⟩ [] = some ⟨["hi"], 10, charTokenizer⟩ :=
  empty_put_noop_within_budget ⟨["hi"], 10, charTokenizer⟩ (by decide)

/-- C9: the entry appended for a message is independent of the message's
role — two messages agreeing on content segments and auxiliary attributes
render identically and drive the block to identical states. -/
theorem role_independent (b : CondensedMemoryBlock) (m1 m2 : ChatMessage)
    (hb : m1.blocks = m2.blocks) (hk : m1.additional_kwargs = m2.additional_kwargs) :
    renderMessage m1 = renderMessage m2 ∧ aput b [m1] = aput b [m2] := by
  have hr : renderMessage m1 = renderMessage m2 := by
    unfold renderMessage textContents
    rw [hb, hk]
  refine ⟨hr, ?_⟩
  unfold aput
  simp only [putMessages, hr]

/-- Witness for C9: the same text under roles user and assistant. -/
theorem role_independent_witness :
    renderMessage msgHi = renderMessage msgHiAssistant
    ∧ aput ⟨[], 50000, charTokenizer⟩ [msgHi]
        = aput ⟨[], 50000, charTokenizer⟩ [msgHiAssistant] :=
  role_independent ⟨[], 50000, charTokenizer⟩ msgHi msgHiAssistant rfl rfl

/-- C10 counterexample: the claim "under the well-formedness precondition
on tool-call records, put completes without error" is false as stated:
with a negative token limit the put never returns even though every
tool-call record is well formed and the key-lookup failure branch is not
taken. -/
theorem toolcall_precondition_cex :
    kwargsWF msgToolCall.additional_kwargs = true
    ∧ (renderMessage msgToolCall).isSome = true
    ∧ aput ⟨[], -1, charTokenizer⟩ [msgToolCall] = none :=
  ⟨rfl, rfl, rfl⟩

/-- C10 (amended): under the precondition that every record listed under a
message's tool-calls attribute is a mapping containing a function entry
with name and arguments keys, the key-lookup failure branch of the
tool-call transformation is unreachable (every message renders), and put
completes without error provided the configured token limit is
nonnegative. -/
theorem wellformed_toolcalls_no_keyerror (b : CondensedMemoryBlock)
    (msgs : List ChatMessage)
    (hwf : ∀ m ∈ msgs, kwargsWF m.additional_kwargs = true) :
    (∀ m ∈ msgs, (renderMessage m).isSome = true)
    ∧ (0 ≤ b.token_limit → (aput b msgs).isSome = true) := by
  have hr : ∀ m ∈ msgs, (renderMessage m).isSome = true := by
    intro m hm
    simp [renderMessage, filterKwargs_of_wf (hwf m hm)]
  refine ⟨hr, fun hlim => ?_⟩
  obtain ⟨mem, hpm⟩ := putMessages_some_of hr b.current_memory
  obtain ⟨mem2, hev⟩ := evict_some_of_nonneg hlim b.tokenizer mem
  simp [aput, hpm, hev]

/-- Witness for C10's amended claim at a concrete well-formed tool-call
message and the default-sized limit. -/
theorem wellformed_toolcalls_no_keyerror_witness :
    (renderMessage msgToolCall).isSome = true
    ∧ (aput ⟨[], 50000, charTokenizer⟩ [msgToolCall]).isSome = true := by
  have h := wellformed_toolcalls_no_keyerror ⟨[], 50000, charTokenizer⟩ [msgToolCall]
    (by intro m hm; rw [List.mem_singleton] at hm; subst hm; rfl)
  exact ⟨h.1 msgToolCall (List.mem_singleton.mpr rfl), h.2 (by norm_num)⟩

end CondensedMemory
